import Mathlib

/-!
Verification of the time-series analytics core of a stock market price
tracker.  The Python source is shallowly embedded: each engine becomes a
pure Lean function over a `List DailyRecord` (the Series) or over a
chronological price list `List ℚ`; nullable CSV fields become `Option ℚ`;
runtime failures (including the unguarded `ZeroDivisionError` in the
performance engine) become constructors of the explicit error type
`EngineError`.  Real numbers of the source are modelled as rationals so
all arithmetic on concrete inputs is exact and computable.
-/

namespace StockTracker

/-- One trading day for one instrument, as produced by the loader
(`read_csv_to_list_of_dicts`): a `date` string used as an opaque key plus
nullable numeric fields.  Field `open` of the source is called
`openPrice` here because `open` is a Lean keyword. -/
structure DailyRecord where
  date : String
  openPrice : Option ℚ
  high : Option ℚ
  low : Option ℚ
  close : Option ℚ
  volume : Option ℚ
deriving DecidableEq, Repr

/-- Builds a record carrying only a date and a close, the two fields the
query and performance engines read; the other fields are absent. -/
def mkRec (date : String) (close : Option ℚ) : DailyRecord :=
  ⟨date, none, none, none, close, none⟩

/-- The error taxonomy of the spec (§7).  `dateNotFound` carries the date
string of the failed lookup.  `divisionByZero` models the Python
`ZeroDivisionError` raised by the unguarded ROI division in
`track_performance`.  `missingField` models a crash on a null value used
where a number is required. -/
inductive EngineError where
  | symbolNotFound : EngineError
  | emptySeries : EngineError
  | insufficientHistory : EngineError
  | missingField : EngineError
  | dateNotFound : String → EngineError
  | priceMissing : EngineError
  | divisionByZero : EngineError
deriving DecidableEq, Repr

/-! ## Signal engine: simple moving average (`stock_analysis._calculate_sma`) -/

/-- Embedding of `_calculate_sma(prices, period)`: for every index
`i < len(prices)`, append `None` when `i + 1 < period`, else the sum of
the slice `prices[i - period + 1 : i + 1]` divided by `period`.  In the
defined branch `period ≤ i + 1`, so the Python slice start `i - period + 1`
equals the natural subtraction `i + 1 - period` and the slice is
`(prices.drop (i + 1 - period)).take period`. -/
def _calculate_sma (prices : List ℚ) (period : ℕ) : List (Option ℚ) :=
  (List.range prices.length).map fun i =>
    if i + 1 < period then none
    else some (((prices.drop (i + 1 - period)).take period).sum / (period : ℚ))

/-- Arithmetic mean of a list, sum over length (the spec's wording for the
value of a defined moving-average entry). -/
def listMean (xs : List ℚ) : ℚ := xs.sum / (xs.length : ℚ)

theorem sma_length (prices : List ℚ) (period : ℕ) :
    (_calculate_sma prices period).length = prices.length := by
  simp [_calculate_sma]

theorem sma_getD (prices : List ℚ) (period : ℕ) (i : ℕ) (hi : i < prices.length) :
    (_calculate_sma prices period).getD i none =
      if i + 1 < period then none
      else some (((prices.drop (i + 1 - period)).take period).sum / (period : ℚ)) := by
  rw [_calculate_sma, List.getD_eq_getElem?_getD, List.getElem?_map,
    List.getElem?_range hi]
  rfl

/-- The window `prices[i - p + 1 : i + 1]` has exactly `p` elements when
`p ≤ i + 1` and `i < len prices`. -/
theorem sma_window_length (prices : List ℚ) (period : ℕ) (i : ℕ)
    (hi : i < prices.length) (hp : period ≤ i + 1) :
    ((prices.drop (i + 1 - period)).take period).length = period := by
  rw [List.length_take, List.length_drop]
  omega

/-- C3: for every price list and period `p ≥ 1`, `_calculate_sma` returns a
list of the same length as the input whose entry at chronological index `i`
is `none` exactly when `i + 1 < p` and otherwise is the arithmetic mean of
the window `prices[i-p+1 .. i]` inclusive; on `[1,2,3,4,5]` with `p = 3`
the result is `[none, none, some 2, some 3, some 4]`. -/
theorem calculate_sma_matches_mean_spec (prices : List ℚ) (period : ℕ)
    (_hp : 1 ≤ period) :
    (_calculate_sma prices period).length = prices.length ∧
    (∀ i, i < prices.length →
      (((_calculate_sma prices period).getD i none = none) ↔ i + 1 < period) ∧
      (period ≤ i + 1 →
        (_calculate_sma prices period).getD i none =
          some (listMean ((prices.drop (i + 1 - period)).take period)))) ∧
    _calculate_sma [1, 2, 3, 4, 5] 3 = [none, none, some 2, some 3, some 4] := by
  refine ⟨sma_length prices period, fun i hi => ?_, by norm_num [_calculate_sma, List.range_succ]⟩
  rw [sma_getD prices period i hi]
  constructor
  · constructor
    · intro h
      by_contra hlt
      rw [if_neg hlt] at h
      exact Option.noConfusion h
    · intro h
      rw [if_pos h]
  · intro h
    rw [if_neg (by omega), listMean, sma_window_length prices period i hi h]

/-- Witness for C3 at `prices = [1,2,3,4,5]`, `p = 3`, `i = 4`. -/
theorem calculate_sma_matches_mean_spec_witness :
    (_calculate_sma [1, 2, 3, 4, 5] 3).getD 4 none =
      some (listMean ((([1, 2, 3, 4, 5] : List ℚ).drop 2).take 3)) :=
  ((calculate_sma_matches_mean_spec [1, 2, 3, 4, 5] 3 (by norm_num)).2.1 4
    (by norm_num)).2 (by norm_num)

/-! ## Signal engine: crossover scan and trend
(`stock_analysis.analyze_buy_sell_signals`) -/

inductive SignalKind where
  | buy : SignalKind
  | sell : SignalKind
deriving DecidableEq, Repr

/-- An emitted crossover signal: its chronological index plus the values
the source prints on that row (price and both averages; the row's date is
`dates[position]`, a pure re-indexing of the Series omitted here). -/
structure Signal where
  position : ℕ
  kind : SignalKind
  price : ℚ
  shortAvg : ℚ
  longAvg : ℚ
deriving DecidableEq, Repr

inductive Trend where
  | bullish : Trend
  | bearish : Trend
deriving DecidableEq, Repr

/-- Structured output of `analyze_buy_sell_signals`: emitted signals, the
current-trend classification, and the gap `short_sma[-1] - long_sma[-1]`. -/
structure SignalReport where
  signals : List Signal
  trend : Trend
  gap : ℚ
deriving DecidableEq, Repr

/-- One iteration of the historical-signals loop at chronological index
`i`: read `short_sma[i]`, `long_sma[i]`, `short_sma[i-1]`, `long_sma[i-1]`
and skip the index (`continue`) when any is `None`; emit a Buy when
`prev_short <= prev_long and curr_short > curr_long`, otherwise (`elif`) a
Sell when `prev_short >= prev_long and curr_short < curr_long`. -/
def signalAt (prices : List ℚ) (shortSMA longSMA : List (Option ℚ)) (i : ℕ) :
    Option Signal := do
  let currShort ← shortSMA.getD i none
  let currLong ← longSMA.getD i none
  let prevShort ← shortSMA.getD (i - 1) none
  let prevLong ← longSMA.getD (i - 1) none
  if prevShort ≤ prevLong ∧ currLong < currShort then
    some ⟨i, .buy, prices.getD i 0, currShort, currLong⟩
  else if prevLong ≤ prevShort ∧ currShort < currLong then
    some ⟨i, .sell, prices.getD i 0, currShort, currLong⟩
  else none

/-- The historical-signals loop `for i in range(long_window, len(prices))`
with `short_window = 5` and `long_window = 10`, collecting the emitted
signals in chronological order. -/
def signalScan (prices : List ℚ) : List Signal :=
  (List.range' 10 (prices.length - 10)).filterMap
    (signalAt prices (_calculate_sma prices 5) (_calculate_sma prices 10))

/-- Embedding of `analyze_buy_sell_signals` on the chronological price
list `prices = [row['close'] for row in data][::-1]` (closes present, as
the source's arithmetic requires): guard `len(prices) < 11`, compute both
SMAs, scan for crossovers, then classify the current trend from
`short_sma[-1]` and `long_sma[-1]`.  The `missingField` branch models the
crash the source would suffer formatting a `None` average; C6 proves it
unreachable. -/
def analyze_buy_sell_signals (prices : List ℚ) : Except EngineError SignalReport :=
  if prices.length < 11 then .error .insufficientHistory
  else
    match (_calculate_sma prices 5).getLast?, (_calculate_sma prices 10).getLast? with
    | some (some lastShort), some (some lastLong) =>
      .ok ⟨signalScan prices,
           if lastLong < lastShort then .bullish else .bearish,
           lastShort - lastLong⟩
    | _, _ => .error .missingField

theorem signalAt_position (prices : List ℚ) (ss ls : List (Option ℚ)) (i : ℕ)
    (s : Signal) (h : signalAt prices ss ls i = some s) : s.position = i := by
  rcases h1 : ss.getD i none with _ | cs <;> rcases h2 : ls.getD i none with _ | cl <;>
    rcases h3 : ss.getD (i - 1) none with _ | ps <;> rcases h4 : ls.getD (i - 1) none with _ | pl <;>
    simp only [signalAt, h1, h2, h3, h4, bind, Option.none_bind, Option.some_bind,
      reduceCtorEq] at h
  split at h
  · injection h with h
    rw [← h]
  · split at h
    · injection h with h
      rw [← h]
    · exact Option.noConfusion h

theorem signalAt_of_defined (prices : List ℚ) (ss ls : List (Option ℚ)) (i : ℕ)
    (cs cl ps pl : ℚ) (hcs : ss.getD i none = some cs) (hcl : ls.getD i none = some cl)
    (hps : ss.getD (i - 1) none = some ps) (hpl : ls.getD (i - 1) none = some pl) :
    signalAt prices ss ls i =
      if ps ≤ pl ∧ cl < cs then some ⟨i, .buy, prices.getD i 0, cs, cl⟩
      else if pl ≤ ps ∧ cs < cl then some ⟨i, .sell, prices.getD i 0, cs, cl⟩
      else none := by
  simp only [signalAt, hcs, hcl, hps, hpl, bind, Option.some_bind]

/-- C4: at every chronological index `i` in the scan range
`[longPeriod, len)` at which all four averages are defined, a Buy signal
fires iff `prevShort <= prevLong` and `currShort > currLong`, a Sell
signal fires iff `prevShort >= prevLong` and `currShort < currLong`, and
no index produces both. -/
theorem analyze_signals_crossover_iff (prices : List ℚ) (i : ℕ) (cs cl ps pl : ℚ)
    (h10 : 10 ≤ i) (hlen : i < prices.length)
    (hps : (_calculate_sma prices 5).getD (i - 1) none = some ps)
    (hpl : (_calculate_sma prices 10).getD (i - 1) none = some pl)
    (hcs : (_calculate_sma prices 5).getD i none = some cs)
    (hcl : (_calculate_sma prices 10).getD i none = some cl) :
    ((∃ s ∈ signalScan prices, s.position = i ∧ s.kind = .buy) ↔ (ps ≤ pl ∧ cl < cs)) ∧
    ((∃ s ∈ signalScan prices, s.position = i ∧ s.kind = .sell) ↔ (pl ≤ ps ∧ cs < cl)) ∧
    ¬((∃ s ∈ signalScan prices, s.position = i ∧ s.kind = .buy) ∧
      (∃ s ∈ signalScan prices, s.position = i ∧ s.kind = .sell)) := by
  have hmem : i ∈ List.range' 10 (prices.length - 10) :=
    List.mem_range'_1.mpr ⟨h10, by omega⟩
  have hsig := signalAt_of_defined prices (_calculate_sma prices 5)
    (_calculate_sma prices 10) i cs cl ps pl hcs hcl hps hpl
  have hbuy : (∃ s ∈ signalScan prices, s.position = i ∧ s.kind = .buy) ↔
      ps ≤ pl ∧ cl < cs := by
    constructor
    · rintro ⟨s, hs, hpos, hkind⟩
      simp only [signalScan, List.mem_filterMap] at hs
      obtain ⟨j, hj, hsj⟩ := hs
      have hji : j = i := by
        have := signalAt_position prices _ _ j s hsj
        omega
      subst hji
      rw [hsig] at hsj
      split at hsj
      · assumption
      · split at hsj
        · injection hsj with hsj
          rw [← hsj] at hkind
          exact absurd hkind (by simp)
        · exact Option.noConfusion hsj
    · intro hc
      refine ⟨⟨i, .buy, prices.getD i 0, cs, cl⟩, ?_, rfl, rfl⟩
      simp only [signalScan, List.mem_filterMap]
      exact ⟨i, hmem, by rw [hsig, if_pos hc]⟩
  have hsell : (∃ s ∈ signalScan prices, s.position = i ∧ s.kind = .sell) ↔
      pl ≤ ps ∧ cs < cl := by
    constructor
    · rintro ⟨s, hs, hpos, hkind⟩
      simp only [signalScan, List.mem_filterMap] at hs
      obtain ⟨j, hj, hsj⟩ := hs
      have hji : j = i := by
        have := signalAt_position prices _ _ j s hsj
        omega
      subst hji
      rw [hsig] at hsj
      split at hsj
      · injection hsj with hsj
        rw [← hsj] at hkind
        exact absurd hkind (by simp)
      · split at hsj
        · assumption
        · exact Option.noConfusion hsj
    · intro hc
      have hnot : ¬(ps ≤ pl ∧ cl < cs) := fun hcc =>
        absurd hc.2 (not_lt.mpr (le_of_lt hcc.2))
      refine ⟨⟨i, .sell, prices.getD i 0, cs, cl⟩, ?_, rfl, rfl⟩
      simp only [signalScan, List.mem_filterMap]
      exact ⟨i, hmem, by rw [hsig, if_neg hnot, if_pos hc]⟩
  refine ⟨hbuy, hsell, ?_⟩
  rintro ⟨hb, hs⟩
  exact absurd (hsell.mp hs).2 (not_lt.mpr (le_of_lt (hbuy.mp hb).2))

/-- Witness for C4: on ten flat days followed by a jump, a Buy signal
fires at chronological index 10. -/
theorem analyze_signals_crossover_iff_witness :
    ∃ s ∈ signalScan [10, 10, 10, 10, 10, 10, 10, 10, 10, 10, 100],
      s.position = 10 ∧ s.kind = SignalKind.buy :=
  ((analyze_signals_crossover_iff
      [10, 10, 10, 10, 10, 10, 10, 10, 10, 10, 100] 10 28 19 10 10
      (by norm_num) (by norm_num)
      (by norm_num [_calculate_sma, List.range_succ])
      (by norm_num [_calculate_sma, List.range_succ])
      (by norm_num [_calculate_sma, List.range_succ])
      (by norm_num [_calculate_sma, List.range_succ])).1).mpr (by norm_num)

theorem getD_of_lt {α : Type _} (l : List α) (n : ℕ) (d : α) (h : n < l.length) :
    l[n]? = some (l.getD n d) := by
  rw [List.getD_eq_getElem?_getD, List.getElem?_eq_getElem h]
  rfl

/-- Once a price list is at least `period` long, the moving average at the
final chronological index is defined. -/
theorem sma_getLast?_defined (prices : List ℚ) (period : ℕ) (hp : 1 ≤ period)
    (h : period ≤ prices.length) :
    (_calculate_sma prices period).getLast? =
      some (some (((prices.drop (prices.length - period)).take period).sum / (period : ℚ))) := by
  have h1 : prices.length - 1 < prices.length := by omega
  have h2 : prices.length - 1 < (_calculate_sma prices period).length := by
    rw [sma_length]
    exact h1
  rw [List.getLast?_eq_getElem?, sma_length,
    getD_of_lt (_calculate_sma prices period) (prices.length - 1) none h2,
    sma_getD prices period (prices.length - 1) h1, if_neg (by omega)]
  have he : prices.length - 1 + 1 - period = prices.length - period := by omega
  rw [he]

/-- C5: a chronological price list shorter than `longPeriod + 1 = 11`
entries makes `analyze_buy_sell_signals` fail with `InsufficientHistory`
and produces zero signals; for longer lists this guard does not fire. -/
theorem analyze_signals_insufficient_history (prices : List ℚ) :
    (prices.length < 11 →
      analyze_buy_sell_signals prices = .error .insufficientHistory ∧
      signalScan prices = []) ∧
    (11 ≤ prices.length →
      analyze_buy_sell_signals prices ≠ .error .insufficientHistory) := by
  constructor
  · intro h
    constructor
    · unfold analyze_buy_sell_signals
      rw [if_pos h]
    · have h0 : prices.length - 10 = 0 := by omega
      rw [signalScan, h0, List.range'_zero, List.filterMap_nil]
  · intro h heq
    unfold analyze_buy_sell_signals at heq
    rw [if_neg (not_lt.mpr h)] at heq
    split at heq <;> simp_all

/-- Witness for C5: the empty list trips the guard; an 11-entry list does
not. -/
theorem analyze_signals_insufficient_history_witness :
    (analyze_buy_sell_signals [] = .error .insufficientHistory ∧
      signalScan [] = []) ∧
    analyze_buy_sell_signals [1, 2, 3, 4, 5, 6, 7, 8, 9, 10, 11] ≠
      .error .insufficientHistory :=
  ⟨(analyze_signals_insufficient_history []).1 (by norm_num),
   (analyze_signals_insufficient_history [1, 2, 3, 4, 5, 6, 7, 8, 9, 10, 11]).2
     (by norm_num)⟩

/-- C6: once the `InsufficientHistory` guard has passed, both moving
averages at the final chronological index are defined, so the trend
computation never hits an undefined value; the trend is `Bullish` exactly
when `shortSMA[last] > longSMA[last]`, otherwise `Bearish`, with
`gap = shortSMA[last] - longSMA[last]`. -/
theorem analyze_signals_trend_defined (prices : List ℚ) (h : 11 ≤ prices.length) :
    ∃ a b, (_calculate_sma prices 5).getLast? = some (some a) ∧
      (_calculate_sma prices 10).getLast? = some (some b) ∧
      analyze_buy_sell_signals prices =
        .ok ⟨signalScan prices, if b < a then .bullish else .bearish, a - b⟩ := by
  refine ⟨_, _, sma_getLast?_defined prices 5 (by norm_num) (by omega),
    sma_getLast?_defined prices 10 (by norm_num) (by omega), ?_⟩
  unfold analyze_buy_sell_signals
  rw [if_neg (not_lt.mpr h), sma_getLast?_defined prices 5 (by norm_num) (by omega),
    sma_getLast?_defined prices 10 (by norm_num) (by omega)]

/-- Witness for C6 on an 11-entry price list. -/
theorem analyze_signals_trend_defined_witness :
    ∃ a b,
      (_calculate_sma [1, 2, 3, 4, 5, 6, 7, 8, 9, 10, 11] 5).getLast? = some (some a) ∧
      (_calculate_sma [1, 2, 3, 4, 5, 6, 7, 8, 9, 10, 11] 10).getLast? = some (some b) ∧
      analyze_buy_sell_signals [1, 2, 3, 4, 5, 6, 7, 8, 9, 10, 11] =
        .ok ⟨signalScan [1, 2, 3, 4, 5, 6, 7, 8, 9, 10, 11],
             if b < a then .bullish else .bearish, a - b⟩ :=
  analyze_signals_trend_defined [1, 2, 3, 4, 5, 6, 7, 8, 9, 10, 11] (by norm_num)

/-! ## Query engine (`stock_query.get_price_by_date`) -/

/-- Model of Python's `str.strip()`: drop leading and trailing whitespace.
Defined over the character list so concrete instances evaluate in the
kernel. -/
def pyStrip (s : String) : String :=
  ⟨((s.data.dropWhile Char.isWhitespace).reverse.dropWhile Char.isWhitespace).reverse⟩

/-- The search loop of `get_price_by_date`: walk the Series in stored
(newest-first) order; on the first record whose `date` equals the target,
return its close, or `priceMissing` when that close is `None`; after an
exhausted loop, `dateNotFound`. -/
def lookupDate (t : String) : List DailyRecord → Except EngineError ℚ
  | [] => .error (.dateNotFound t)
  | r :: rest =>
    if r.date = t then
      match r.close with
      | none => .error .priceMissing
      | some p => .ok p
    else lookupDate t rest

/-- Embedding of `get_price_by_date` at the Series level: the engine first
standardizes `target_date = target_date.strip()`, then runs the search
loop.  (The symbol-to-Series resolution one level above is out of engine
scope.) -/
def get_price_by_date (data : List DailyRecord) (target_date : String) :
    Except EngineError ℚ :=
  lookupDate (pyStrip target_date) data

theorem lookupDate_spec (t : String) (data : List DailyRecord) :
    (data.find? (fun r => r.date = t) = none →
      lookupDate t data = .error (.dateNotFound t)) ∧
    (∀ r, data.find? (fun r => r.date = t) = some r →
      (r.close = none → lookupDate t data = .error .priceMissing) ∧
      (∀ p, r.close = some p → lookupDate t data = .ok p)) := by
  induction data with
  | nil => exact ⟨fun _ => rfl, fun r hr => absurd hr (by simp)⟩
  | cons d rest ih =>
    by_cases hd : d.date = t
    · have hfind : (d :: rest).find? (fun r => r.date = t) = some d :=
        List.find?_cons_of_pos rest (by simp [hd])
      refine ⟨fun h => ?_, fun r hr => ?_⟩
      · rw [hfind] at h
        exact Option.noConfusion h
      · rw [hfind] at hr
        injection hr with hr
        subst hr
        constructor
        · intro hc
          unfold lookupDate
          rw [if_pos hd, hc]
        · intro p hp
          unfold lookupDate
          rw [if_pos hd, hp]
    · have hstep : lookupDate t (d :: rest) = lookupDate t rest := by
        conv_lhs => unfold lookupDate
        rw [if_neg hd]
      have hfind : (d :: rest).find? (fun r => r.date = t) =
          rest.find? (fun r => r.date = t) :=
        List.find?_cons_of_neg rest (by simp [hd])
      refine ⟨fun h => ?_, fun r hr => ?_⟩
      · rw [hfind] at h
        rw [hstep]
        exact ih.1 h
      · rw [hfind] at hr
        rw [hstep]
        exact ih.2 r hr

/-- C2: `get_price_by_date` scans the Series in stored order and decides
on the first record whose date equals the whitespace-stripped target:
`ok close` when that close is present, `priceMissing` when it is null,
and `dateNotFound` when no record's date matches at all; the two error
outcomes are distinct. -/
theorem get_price_by_date_first_match (data : List DailyRecord) (target_date : String) :
    (∀ t, EngineError.priceMissing ≠ EngineError.dateNotFound t) ∧
    (data.find? (fun r => r.date = pyStrip target_date) = none →
      get_price_by_date data target_date = .error (.dateNotFound (pyStrip target_date))) ∧
    (∀ r, data.find? (fun r => r.date = pyStrip target_date) = some r →
      (r.close = none → get_price_by_date data target_date = .error .priceMissing) ∧
      (∀ p, r.close = some p → get_price_by_date data target_date = .ok p)) :=
  ⟨fun _ h => EngineError.noConfusion h,
   (lookupDate_spec (pyStrip target_date) data).1,
   (lookupDate_spec (pyStrip target_date) data).2⟩

/-- Witness for C2: a null-close match yields `priceMissing`, an absent
date yields `dateNotFound`, and a present close is returned. -/
theorem get_price_by_date_first_match_witness :
    get_price_by_date [mkRec "01/05/2025" none, mkRec "01/06/2025" (some 7)]
      " 01/05/2025 " = .error .priceMissing ∧
    get_price_by_date [mkRec "01/05/2025" none, mkRec "01/06/2025" (some 7)]
      "01/07/2025" = .error (.dateNotFound (pyStrip "01/07/2025")) ∧
    get_price_by_date [mkRec "01/05/2025" none, mkRec "01/06/2025" (some 7)]
      "01/06/2025" = .ok 7 :=
  ⟨((get_price_by_date_first_match _ " 01/05/2025 ").2.2 (mkRec "01/05/2025" none)
      (by decide)).1 rfl,
   (get_price_by_date_first_match _ "01/07/2025").2.1 (by decide),
   ((get_price_by_date_first_match _ "01/06/2025").2.2 (mkRec "01/06/2025" (some 7))
      (by decide)).2 7 rfl⟩

/-! ## Performance engine (`stock_portfolio.track_performance`) -/

/-- The price-finding loop of `track_performance`: one pass over the
Series that, on every row, overwrites `buy_price` with the row's close
when the row's date equals the buy date, and likewise `sell_price` for
the sell date.  Both start as `None`.  (The two dates arrive already
stripped by `input().strip()`.) -/
def lookupTradePrices (data : List DailyRecord) (buy_date sell_date : String) :
    Option ℚ × Option ℚ :=
  data.foldl (fun acc row =>
    (if row.date = buy_date then row.close else acc.1,
     if row.date = sell_date then row.close else acc.2)) (none, none)

inductive TradeOutcome where
  | profit : TradeOutcome
  | loss : TradeOutcome
deriving DecidableEq, Repr

/-- Structured report of `track_performance`. -/
structure PerformanceResult where
  buyDate : String
  buyPrice : ℚ
  sellDate : String
  sellPrice : ℚ
  profit : ℚ
  roi : ℚ
  outcome : TradeOutcome
deriving DecidableEq, Repr

/-- Embedding of `track_performance` at the Series level: find the two
prices, report the buy date as not found when `buy_price` ends as `None`
(checked first), then the sell date likewise; otherwise compute
`profit = sell - buy` and `roi = profit / buy * 100`.  The source has no
guard on `buy_price == 0`: the `divisionByZero` branch models the
`ZeroDivisionError` Python raises at the ROI division. -/
def track_performance (data : List DailyRecord) (buy_date sell_date : String) :
    Except EngineError PerformanceResult :=
  match lookupTradePrices data buy_date sell_date with
  | (none, _) => .error (.dateNotFound buy_date)
  | (some _, none) => .error (.dateNotFound sell_date)
  | (some buy_price, some sell_price) =>
    if buy_price = 0 then .error .divisionByZero
    else
      .ok ⟨buy_date, buy_price, sell_date, sell_price, sell_price - buy_price,
           (sell_price - buy_price) / buy_price * 100,
           if 0 ≤ sell_price - buy_price then .profit else .loss⟩

/-- Close of the last record in the Series whose date equals `d` (the
first match of the reversed Series): the price `track_performance`
actually ends up using for date `d`. -/
def lastMatchClose (data : List DailyRecord) (d : String) : Option ℚ :=
  (data.reverse.find? (fun r => r.date = d)).bind (fun r => r.close)

theorem foldl_overwrite (d : String) (data : List DailyRecord) (acc : Option ℚ) :
    data.foldl (fun a row => if row.date = d then row.close else a) acc =
      ((data.reverse.find? (fun r => r.date = d)).map (fun r => r.close)).getD acc := by
  induction data generalizing acc with
  | nil => rfl
  | cons r rest ih =>
    rw [List.foldl_cons, ih, List.reverse_cons, List.find?_append]
    cases hfind : rest.reverse.find? (fun q => q.date = d) with
    | some q => rfl
    | none =>
      by_cases hr : r.date = d <;>
        simp [List.find?_cons, List.find?_nil, hr]

theorem foldl_pair (data : List DailyRecord) (bd sd : String) (a b : Option ℚ) :
    data.foldl (fun acc row =>
        (if row.date = bd then row.close else acc.1,
         if row.date = sd then row.close else acc.2)) (a, b) =
      (data.foldl (fun x row => if row.date = bd then row.close else x) a,
       data.foldl (fun x row => if row.date = sd then row.close else x) b) := by
  induction data generalizing a b with
  | nil => rfl
  | cons r rest ih =>
    rw [List.foldl_cons, ih, List.foldl_cons, List.foldl_cons]

theorem map_close_getD_none (o : Option DailyRecord) :
    ((o.map (fun r => r.close)).getD none) = o.bind (fun r => r.close) := by
  cases o <;> rfl

/-- The overwrite loop delivers, for each date, the close of the last
matching record. -/
theorem lookupTradePrices_eq (data : List DailyRecord) (bd sd : String) :
    lookupTradePrices data bd sd = (lastMatchClose data bd, lastMatchClose data sd) := by
  rw [lookupTradePrices, foldl_pair, foldl_overwrite, foldl_overwrite,
    lastMatchClose, lastMatchClose, map_close_getD_none, map_close_getD_none]

/-- A Series with two records sharing the buy date (closes 1 then 2) and a
distinct sell-date record (close 5). -/
def dupDateSeries : List DailyRecord :=
  [mkRec "01/02/2025" (some 1), mkRec "01/02/2025" (some 2),
   mkRec "01/03/2025" (some 5)]

/-- C1 counterexample: on `dupDateSeries` the FIRST record matching the
buy date has close 1, yet `track_performance` uses 2 (the LAST match) as
the buy price — the claim that the first match's close is taken is false. -/
theorem track_performance_first_match_counterexample :
    ((dupDateSeries.find? (fun r => r.date = "01/02/2025")).bind
        (fun r => r.close) = some 1) ∧
    (∃ res, track_performance dupDateSeries "01/02/2025" "01/03/2025" = .ok res ∧
      res.buyPrice = 2) ∧
    (2 : ℚ) ≠ 1 := by
  refine ⟨by decide,
    ⟨⟨"01/02/2025", 2, "01/03/2025", 5, 3, 150, .profit⟩, ?_, rfl⟩, by norm_num⟩
  have h1 : lastMatchClose dupDateSeries "01/02/2025" = some 2 := by decide
  have h2 : lastMatchClose dupDateSeries "01/03/2025" = some 5 := by decide
  unfold track_performance
  rw [lookupTradePrices_eq, h1, h2]
  norm_num

/-- C1 amended: for every Series and pair of dates, `track_performance`
takes the close of the LAST record whose date equals the buy date as the
buy price and the close of the LAST record whose date equals the sell
date as the sell price (this matters exactly when several records share a
date string); when both lookups succeed with a nonzero buy price, the
result carries those two prices. -/
theorem track_performance_uses_last_match (data : List DailyRecord) (bd sd : String) :
    lookupTradePrices data bd sd = (lastMatchClose data bd, lastMatchClose data sd) ∧
    (∀ pb ps, lastMatchClose data bd = some pb → lastMatchClose data sd = some ps →
      pb ≠ 0 →
      ∃ res, track_performance data bd sd = .ok res ∧
        res.buyPrice = pb ∧ res.sellPrice = ps) := by
  refine ⟨lookupTradePrices_eq data bd sd, fun pb ps hb hs hz => ?_⟩
  refine ⟨⟨bd, pb, sd, ps, ps - pb, (ps - pb) / pb * 100,
    if 0 ≤ ps - pb then .profit else .loss⟩, ?_, rfl, rfl⟩
  unfold track_performance
  rw [lookupTradePrices_eq, hb, hs]
  simp [hz]

/-- Witness for the amended C1 on `dupDateSeries`: the buy price used is
2, the last matching close. -/
theorem track_performance_uses_last_match_witness :
    ∃ res, track_performance dupDateSeries "01/02/2025" "01/03/2025" = .ok res ∧
      res.buyPrice = 2 ∧ res.sellPrice = 5 :=
  (track_performance_uses_last_match dupDateSeries "01/02/2025" "01/03/2025").2 2 5
    (by decide) (by decide) (by norm_num)

/-- A Series whose buy-date record closes at exactly 0 while the sell-date
record has a present close. -/
def zeroBuySeries : List DailyRecord :=
  [mkRec "01/02/2025" (some 0), mkRec "01/03/2025" (some 60)]

/-- C9: `track_performance` has no guard against a zero buy price: a
matched buy record with close 0 and a matched sell record with a present
close reach the ROI division by zero (modelled as the `divisionByZero`
error). -/
theorem track_performance_division_by_zero_reachable :
    lastMatchClose zeroBuySeries "01/02/2025" = some 0 ∧
    lastMatchClose zeroBuySeries "01/03/2025" = some 60 ∧
    track_performance zeroBuySeries "01/02/2025" "01/03/2025" =
      .error .divisionByZero := by
  refine ⟨by decide, by decide, ?_⟩
  have h1 : lastMatchClose zeroBuySeries "01/02/2025" = some 0 := by decide
  have h2 : lastMatchClose zeroBuySeries "01/03/2025" = some 60 := by decide
  unfold track_performance
  rw [lookupTradePrices_eq, h1, h2]
  norm_num

/-- C10: `track_performance` never produces the `priceMissing` outcome;
whenever the last record matching the buy (resp. sell) date has a null
close, the engine reports that date as not found — the very outcome of no
match at all. -/
theorem track_performance_null_match_is_not_found (data : List DailyRecord)
    (bd sd : String) :
    (track_performance data bd sd ≠ .error .priceMissing) ∧
    (∀ r, data.reverse.find? (fun q => q.date = bd) = some r → r.close = none →
      track_performance data bd sd = .error (.dateNotFound bd)) ∧
    (∀ pb r, lastMatchClose data bd = some pb →
      data.reverse.find? (fun q => q.date = sd) = some r → r.close = none →
      track_performance data bd sd = .error (.dateNotFound sd)) := by
  refine ⟨?_, ?_, ?_⟩
  · intro h
    unfold track_performance at h
    rcases hlp : lookupTradePrices data bd sd with ⟨bp, sp⟩
    rw [hlp] at h
    rcases bp with _ | pb
    · simp at h
    · rcases sp with _ | ps
      · simp at h
      · split at h
        · simp at h
        · simp at h
        · split at h <;> simp at h
  · intro r hfind hclose
    unfold track_performance
    rw [lookupTradePrices_eq]
    have hb : lastMatchClose data bd = none := by
      simp only [lastMatchClose, hfind, Option.some_bind, hclose]
    rw [hb]
  · intro pb r hb hfind hclose
    unfold track_performance
    rw [lookupTradePrices_eq, hb]
    have hs : lastMatchClose data sd = none := by
      simp only [lastMatchClose, hfind, Option.some_bind, hclose]
    rw [hs]

/-- Witness for C10: a Series whose only record matches the buy date with
a null close yields `dateNotFound`, not `priceMissing`. -/
theorem track_performance_null_match_is_not_found_witness :
    track_performance [mkRec "01/02/2025" none] "01/02/2025" "01/09/2025" =
      .error (.dateNotFound "01/02/2025") :=
  (track_performance_null_match_is_not_found [mkRec "01/02/2025" none]
    "01/02/2025" "01/09/2025").2.1 (mkRec "01/02/2025" none) (by decide) rfl

/-! ## Summary engine (`stock_analysis.generate_stock_summary`) -/

/-- `max(valid_highs) if valid_highs else 0.0` over the window's non-null
highs. -/
def summaryHighest (recent : List DailyRecord) : ℚ :=
  ((recent.filterMap (fun row => row.high)).max?).getD 0

/-- `min(valid_lows) if valid_lows else 0.0` over the window's non-null
lows. -/
def summaryLowest (recent : List DailyRecord) : ℚ :=
  ((recent.filterMap (fun row => row.low)).min?).getD 0

/-- `sum(valid_volumes) / len(valid_volumes)` when any non-null volume
exists in the window, else 0. -/
def summaryAvgVolume (recent : List DailyRecord) : ℚ :=
  if (recent.filterMap (fun row => row.volume)).isEmpty then 0
  else (recent.filterMap (fun row => row.volume)).sum /
    ((recent.filterMap (fun row => row.volume)).length : ℚ)

/-- Structured rows of the summary report (`summary_data` in the source). -/
structure StockSummary where
  periodDays : ℕ
  fromDate : String
  toDate : String
  currentPrice : Option ℚ
  priceChange : ℚ
  percentChange : ℚ
  highestPrice : ℚ
  lowestPrice : ℚ
  avgVolume : ℚ
deriving DecidableEq, Repr

/-- Embedding of `stock_analysis.generate_stock_summary` at the Series
level (the variant `main.py` invokes): error on an empty Series, slice the
first 10 rows (newest-first), take `current = recent_data[0]` and
`baseline = recent_data[-1]`; when both closes are present,
`price_change = current - baseline` and `pct_change` guarded against a
zero baseline; when either close is null, both changes fall back to 0. -/
def generate_stock_summary : List DailyRecord → Except EngineError StockSummary
  | [] => .error .emptySeries
  | d :: rest =>
    let recent := (d :: rest).take 10
    let current_row := recent.headD d
    let start_row := recent.getLastD d
    match start_row.close, current_row.close with
    | some s, some c =>
      .ok ⟨recent.length, start_row.date, current_row.date, current_row.close,
           c - s, if s ≠ 0 then (c - s) / s * 100 else 0,
           summaryHighest recent, summaryLowest recent, summaryAvgVolume recent⟩
    | _, _ =>
      .ok ⟨recent.length, start_row.date, current_row.date, current_row.close,
           0, 0, summaryHighest recent, summaryLowest recent, summaryAvgVolume recent⟩

/-- C7: on a non-empty Series, a null current or baseline close makes the
summary succeed with `priceChange` and `percentChange` both exactly zero
(no null propagation, no error). -/
theorem generate_stock_summary_null_close_zero (d : DailyRecord)
    (rest : List DailyRecord)
    (h : d.close = none ∨ (((d :: rest).take 10).getLastD d).close = none) :
    ∃ s, generate_stock_summary (d :: rest) = .ok s ∧
      s.priceChange = 0 ∧ s.percentChange = 0 := by
  have hrecent : (d :: rest).take 10 = d :: rest.take 9 := rfl
  rw [hrecent] at h
  refine ⟨⟨(d :: rest.take 9).length, ((d :: rest.take 9).getLastD d).date, d.date,
    d.close, 0, 0, summaryHighest (d :: rest.take 9), summaryLowest (d :: rest.take 9),
    summaryAvgVolume (d :: rest.take 9)⟩, ?_, rfl, rfl⟩
  simp only [generate_stock_summary, hrecent, List.headD_cons]
  rcases hstart : ((d :: rest.take 9).getLastD d).close with _ | s
  · rfl
  · rcases h with h | h
    · rw [h]
    · rw [hstart] at h
      exact Option.noConfusion h

/-- Witness for C7: a one-record Series with a null close. -/
theorem generate_stock_summary_null_close_zero_witness :
    ∃ s, generate_stock_summary [mkRec "01/02/2025" none] = .ok s ∧
      s.priceChange = 0 ∧ s.percentChange = 0 :=
  generate_stock_summary_null_close_zero (mkRec "01/02/2025" none) [] (Or.inl rfl)

/-- C8: on a non-empty Series with present current close `c` and baseline
close `b`, the summary reports `priceChange = c - b` and
`percentChange = (c - b) / b * 100` when `b ≠ 0`, and exactly 0 when
`b = 0` — the guarded fallback making the division by zero unreachable. -/
theorem generate_stock_summary_percent_change (d : DailyRecord)
    (rest : List DailyRecord) (c b : ℚ) (hc : d.close = some c)
    (hb : (((d :: rest).take 10).getLastD d).close = some b) :
    ∃ s, generate_stock_summary (d :: rest) = .ok s ∧
      s.priceChange = c - b ∧
      (b ≠ 0 → s.percentChange = (c - b) / b * 100) ∧
      (b = 0 → s.percentChange = 0) := by
  have hrecent : (d :: rest).take 10 = d :: rest.take 9 := rfl
  rw [hrecent] at hb
  refine ⟨⟨(d :: rest.take 9).length, ((d :: rest.take 9).getLastD d).date, d.date,
    d.close, c - b, if b ≠ 0 then (c - b) / b * 100 else 0,
    summaryHighest (d :: rest.take 9), summaryLowest (d :: rest.take 9),
    summaryAvgVolume (d :: rest.take 9)⟩, ?_, rfl, ?_, ?_⟩
  · simp only [generate_stock_summary, hrecent, List.headD_cons]
    rw [hb, hc]
  · intro hbz
    show (if b ≠ 0 then (c - b) / b * 100 else 0) = (c - b) / b * 100
    exact if_pos hbz
  · intro hbz
    show (if b ≠ 0 then (c - b) / b * 100 else 0) = 0
    exact if_neg (not_not_intro hbz)

/-- Witness for C8 on a two-record Series whose baseline close is exactly
0: the percent change is 0, not an undefined value. -/
theorem generate_stock_summary_percent_change_witness :
    ∃ s, generate_stock_summary
        [mkRec "01/03/2025" (some 10), mkRec "01/02/2025" (some 0)] = .ok s ∧
      s.priceChange = 10 - 0 ∧
      ((0 : ℚ) ≠ 0 → s.percentChange = (10 - 0) / 0 * 100) ∧
      ((0 : ℚ) = 0 → s.percentChange = 0) :=
  generate_stock_summary_percent_change (mkRec "01/03/2025" (some 10))
    [mkRec "01/02/2025" (some 0)] 10 0 rfl (by decide)

end StockTracker
